import Mathlib

/-!
# RenderMind — verification of the Instruction-to-Execution Pipeline

Shallow embedding of the parts of the RenderMind Blender add-on that the
specification's claims are about:

* `src/utils/safe_filters.py` — the three-check Safety Filter
  (`check_dangerous_patterns`, `check_imports`, `validate_code_safety`);
* `src/blender_addon/model_library.py` — the Asset Matcher (`search_models`);
* `src/model_interface.py` — the Code Generation Gateway's response splitting;
* `src/blender_addon/plan_emitter.py` — the Plan-to-Script Emitter;
* `src/blender_addon/blender_utils.py` — `validate_script`,
  `exec_script_in_current_scene`, the `RMChatMessage` data model;
* `src/blender_addon/operators.py` — the chat / preview operators.

Python strings are modelled as `List Char` (with `String` wrappers at the
API boundary); only ASCII case folding is modelled, which covers every
pattern and input appearing in the code and the claims.  External effects
(the Python byte-code compiler, `float()`, `exec`, Blender's render and
scene API, the network backend) are passed in as explicit oracle
parameters, so the embedded control flow is exactly the source's while the
environment stays free.
-/

namespace RenderMind

/-! ## Python string primitives (over `List Char`) -/

/-- ASCII lower-casing of one character (what `str.lower()` / `re.IGNORECASE`
do on the ASCII inputs relevant here). -/
def lowerC (c : Char) : Char :=
  if 'A' ≤ c ∧ c ≤ 'Z' then Char.ofNat (c.toNat + 32) else c

/-- `str.lower()`. -/
def lowerStr (cs : List Char) : List Char := cs.map lowerC

/-- Python whitespace (`\s` for the ASCII range): space, tab, newline,
carriage return, vertical tab, form feed. -/
def pyWs (c : Char) : Bool :=
  c = ' ' || c = '\t' || c = '\n' || c = '\r' || c = '\x0b' || c = '\x0c'

/-- Python word character (`\w` for the ASCII range). -/
def pyWord (c : Char) : Bool :=
  ('a' ≤ c && c ≤ 'z') || ('A' ≤ c && c ≤ 'Z') || ('0' ≤ c && c ≤ '9') || c = '_'

/-- `needle in haystack` (Python substring test). -/
def isSubstr (n : List Char) : List Char → Bool
  | [] => n.isEmpty
  | c :: t => n.isPrefixOf (c :: t) || isSubstr n t

/-- Split a list at the first occurrence of `sep`: returns
`(text before, text after)` when `sep` occurs, `none` otherwise.
For nonempty `sep` this is the primitive behind Python's `str.split`. -/
def splitFirst (sep : List Char) : List Char → Option (List Char × List Char)
  | [] => if sep.isEmpty then some ([], []) else none
  | c :: t =>
    if sep.isPrefixOf (c :: t) then some ([], (c :: t).drop sep.length)
    else
      match splitFirst sep t with
      | none => none
      | some (b, a) => some (c :: b, a)

/-- Fuel-driven worker for `pySplit` (the fuel only serves termination; it is
always sufficient at the call sites). -/
def pySplitAux (sep : List Char) : Nat → List Char → List (List Char)
  | 0, cs => [cs]
  | fuel + 1, cs =>
    match splitFirst sep cs with
    | none => [cs]
    | some (b, a) => b :: pySplitAux sep fuel a

/-- Python `str.split(sep)` for a nonempty separator: the pieces between the
leftmost non-overlapping occurrences of `sep`. -/
def pySplit (sep cs : List Char) : List (List Char) :=
  pySplitAux sep (cs.length + 1) cs

/-- Fuel-driven worker for `pySplitWs`; each step consumes at least one
character, so fuel `cs.length` is always sufficient. -/
def pySplitWsAux : Nat → List Char → List (List Char)
  | 0, _ => []
  | _ + 1, [] => []
  | fuel + 1, c :: t =>
    if pyWs c then pySplitWsAux fuel t
    else (c :: t.takeWhile (fun d => !pyWs d)) ::
      pySplitWsAux fuel (t.dropWhile (fun d => !pyWs d))

/-- Python `str.split()` (no argument): split on whitespace runs, dropping
empty pieces.  (When the head is not whitespace, `takeWhile`/`dropWhile` on
`c :: t` reduce to `c :: t.takeWhile _` and `t.dropWhile _`, which is the
form used in the worker.) -/
def pySplitWs (cs : List Char) : List (List Char) :=
  pySplitWsAux cs.length cs

/-- Python `str.strip()` (whitespace from both ends). -/
def pyStrip (cs : List Char) : List Char :=
  ((cs.dropWhile pyWs).reverse.dropWhile pyWs).reverse

/-- Python `str.strip(chars)`: strip any of the given characters from both
ends. -/
def pyStripChars (chars cs : List Char) : List Char :=
  ((cs.dropWhile (chars.contains ·)).reverse.dropWhile (chars.contains ·)).reverse

/-- Fuel-driven worker for `pyReplace`. -/
def pyReplaceAux (old new : List Char) : Nat → List Char → List Char
  | 0, cs => cs
  | fuel + 1, cs =>
    match splitFirst old cs with
    | none => cs
    | some (b, a) => b ++ new ++ pyReplaceAux old new fuel a

/-- Python `str.replace(old, new)` for nonempty `old`: replace the leftmost
non-overlapping occurrences, left to right. -/
def pyReplace (old new cs : List Char) : List Char :=
  pyReplaceAux old new (cs.length + 1) cs

/-- `", ".join(strings)` and friends. -/
def pyJoin (sep : List Char) : List (List Char) → List Char
  | [] => []
  | [x] => x
  | x :: y :: t => x ++ sep ++ pyJoin sep (y :: t)

/-! ### Basic lemmas about the primitives -/

theorem isSubstr_infix_iff (n h : List Char) : isSubstr n h = true ↔ n <:+: h := by
  induction h with
  | nil =>
    simp [isSubstr, List.isEmpty_iff]
  | cons c t ih =>
    simp only [isSubstr, Bool.or_eq_true, ih, List.infix_cons_iff,
      List.isPrefixOf_iff_prefix]

theorem splitFirst_append (sep : List Char) :
    ∀ cs b a, splitFirst sep cs = some (b, a) → cs = b ++ sep ++ a := by
  intro cs
  induction cs with
  | nil =>
    intro b a h
    simp only [splitFirst] at h
    split at h
    · next hs =>
      simp only [Option.some.injEq, Prod.mk.injEq] at h
      obtain ⟨rfl, rfl⟩ := h
      simp [List.isEmpty_iff.mp hs]
    · exact Option.noConfusion h
  | cons c t ih =>
    intro b a h
    simp only [splitFirst] at h
    split at h
    · next hp =>
      obtain ⟨u, hu⟩ := List.isPrefixOf_iff_prefix.mp hp
      simp only [Option.some.injEq, Prod.mk.injEq] at h
      obtain ⟨rfl, rfl⟩ := h
      conv_lhs => rw [← hu]
      rw [List.nil_append, ← hu, List.drop_left]
    · next hp =>
      cases hsp : splitFirst sep t with
      | none => rw [hsp] at h; exact Option.noConfusion h
      | some p =>
        obtain ⟨b', a'⟩ := p
        rw [hsp] at h
        simp only [Option.some.injEq, Prod.mk.injEq] at h
        obtain ⟨rfl, rfl⟩ := h
        have := ih b' a' hsp
        simp [this]

theorem splitFirst_none_iff (sep : List Char) (hsep : sep ≠ []) :
    ∀ cs, splitFirst sep cs = none ↔ isSubstr sep cs = false := by
  intro cs
  induction cs with
  | nil =>
    simp [splitFirst, isSubstr, List.isEmpty_iff, hsep]
  | cons c t ih =>
    simp only [splitFirst, isSubstr]
    split
    · next hp => simp [hp]
    · next hp =>
      cases hsp : splitFirst sep t with
      | none =>
        have ht := ih.mp hsp
        simp [hp, ht]
      | some p =>
        obtain ⟨b', a'⟩ := p
        constructor
        · intro h; exact Option.noConfusion h
        · intro h
          simp only [Bool.or_eq_false_iff] at h
          rw [ih.mpr h.2] at hsp
          exact Option.noConfusion hsp

theorem splitFirst_after_length (sep : List Char) (hsep : sep ≠ [])
    {cs b a : List Char} (h : splitFirst sep cs = some (b, a)) :
    a.length < cs.length := by
  have := splitFirst_append sep cs b a h
  have hs : 0 < sep.length := List.length_pos.mpr hsep
  subst this
  simp only [List.length_append]
  omega

theorem pySplitAux_fuel (sep : List Char) (hsep : sep ≠ []) :
    ∀ f1 f2 cs, cs.length < f1 → cs.length < f2 →
      pySplitAux sep f1 cs = pySplitAux sep f2 cs := by
  intro f1
  induction f1 with
  | zero => intro f2 cs h1; omega
  | succ f1 ih =>
    intro f2 cs h1 h2
    cases f2 with
    | zero => omega
    | succ f2 =>
      simp only [pySplitAux]
      cases hsp : splitFirst sep cs with
      | none => rfl
      | some p =>
        obtain ⟨b, a⟩ := p
        have ha := splitFirst_after_length sep hsep hsp
        dsimp only
        rw [ih f2 a (by omega) (by omega)]

theorem pySplit_eq (sep : List Char) (hsep : sep ≠ []) (cs : List Char) :
    pySplit sep cs =
      match splitFirst sep cs with
      | none => [cs]
      | some (b, a) => b :: pySplit sep a := by
  unfold pySplit
  conv_lhs => rw [pySplitAux]
  cases hsp : splitFirst sep cs with
  | none => rfl
  | some p =>
    obtain ⟨b, a⟩ := p
    have ha := splitFirst_after_length sep hsep hsp
    dsimp only
    rw [pySplitAux_fuel sep hsep cs.length (a.length + 1) a (by omega) (by omega)]

theorem pySplit_getD_zero (sep : List Char) (hsep : sep ≠ []) (cs : List Char) :
    (pySplit sep cs).getD 0 [] =
      match splitFirst sep cs with
      | none => cs
      | some (b, _) => b := by
  rw [pySplit_eq sep hsep]
  cases hsp : splitFirst sep cs with
  | none => rfl
  | some p => obtain ⟨b, a⟩ := p; rfl

theorem pySplit_getD_one (sep : List Char) (hsep : sep ≠ [])
    {cs b a : List Char} (h : splitFirst sep cs = some (b, a)) :
    (pySplit sep cs).getD 1 [] = (pySplit sep a).getD 0 [] := by
  rw [pySplit_eq sep hsep, h]
  rfl

theorem pyStrip_length_le (cs : List Char) : (pyStrip cs).length ≤ cs.length := by
  unfold pyStrip
  calc ((cs.dropWhile pyWs).reverse.dropWhile pyWs).reverse.length
      = ((cs.dropWhile pyWs).reverse.dropWhile pyWs).length := by
        rw [List.length_reverse]
    _ ≤ (cs.dropWhile pyWs).reverse.length := (List.dropWhile_sublist _).length_le
    _ = (cs.dropWhile pyWs).length := by rw [List.length_reverse]
    _ ≤ cs.length := (List.dropWhile_sublist _).length_le

/-! ## Safety Filter (`src/utils/safe_filters.py`)

The blocklist entries are regexes, but every entry is either a
case-insensitive literal (all the escaped-dot patterns, applied with
`re.IGNORECASE`) or the single pattern `with\s+open`.  `Pat` captures
exactly these two shapes; `matchPatAt` is the regex match attempt at one
position, and `findIter` is `re.finditer`'s left-to-right non-overlapping
scan. -/

/-- The shape of the patterns appearing in `DANGEROUS_PATTERNS`. -/
inductive Pat where
  | lit : List Char → Pat
  | withOpen : Pat
deriving DecidableEq, Repr

/-- Case-insensitive "does `pat` match at the start of `cs`". -/
def ciPrefix (pat cs : List Char) : Bool :=
  lowerStr pat == lowerStr (cs.take pat.length)

/-- Attempt to match the pattern at position `i` of `cs`; returns the
length of the match (`re` semantics: for `with\s+open` the `\s+` is greedy,
and since `o` is not whitespace the only viable match takes the whole
whitespace run). -/
def matchPatAt : Pat → List Char → Nat → Option Nat
  | .lit l, cs, i =>
    if ciPrefix l (cs.drop i) then some l.length else none
  | .withOpen, cs, i =>
    let rest := cs.drop i
    if ciPrefix "with".data rest then
      let afterW := rest.drop 4
      let k := (afterW.takeWhile pyWs).length
      if 0 < k && ciPrefix "open".data (afterW.drop k) then some (4 + k + 4)
      else none
    else none

/-- `re.finditer` worker: scan left to right from position `i`; after a
match of length `l` resume at `i + l` (non-overlapping), otherwise advance
one position.  The fuel is always sufficient at the call site (every match
has positive length). -/
def findIterAux (p : Pat) (cs : List Char) : Nat → Nat → List (Nat × Nat)
  | 0, _ => []
  | fuel + 1, i =>
    if i < cs.length then
      match matchPatAt p cs i with
      | some l => (i, l) :: findIterAux p cs fuel (i + l)
      | none => findIterAux p cs fuel (i + 1)
    else []

/-- All matches of `re.finditer(pattern, code)` as `(position, length)`
pairs, in scan order. -/
def findIter (p : Pat) (cs : List Char) : List (Nat × Nat) :=
  findIterAux p cs (cs.length + 1) 0

/-- One entry of the violation report built by `check_dangerous_patterns`:
the pattern, the matched text (`match.group()`) and the offset
(`match.start()`). -/
structure Violation where
  pattern : Pat
  matched : List Char
  position : Nat
deriving DecidableEq, Repr

/-- `DANGEROUS_PATTERNS` from `src/utils/safe_filters.py`, in source
order. -/
def DANGEROUS_PATTERNS : List Pat :=
  [ .lit "os.system".data
  , .lit "os.remove".data
  , .lit "os.rmdir".data
  , .lit "shutil.rmtree".data
  , .lit "subprocess.".data
  , .lit "urllib.request".data
  , .lit "requests.".data
  , .lit "socket.".data
  , .lit "http.".data
  , .lit "eval(".data
  , .lit "exec(".data
  , .lit "__import__".data
  , .lit "compile(".data
  , .lit "open(".data
  , .lit "file(".data
  , .withOpen ]

/-- `check_dangerous_patterns(code)`: for each pattern, every `finditer`
match becomes a violation entry; returns `(is_safe, violations)` with
`is_safe = (len(violations) == 0)`. -/
def check_dangerous_patterns (code : String) : Bool × List Violation :=
  let cs := code.data
  let violations := DANGEROUS_PATTERNS.flatMap fun p =>
    (findIter p cs).map fun im =>
      { pattern := p, matched := (cs.drop im.1).take im.2, position := im.1 }
  (violations.isEmpty, violations)

/-- `ALLOWED_IMPORTS` from `src/utils/safe_filters.py`. -/
def ALLOWED_IMPORTS : List String :=
  ["bpy", "mathutils", "bmesh", "math", "random", "datetime"]

/-- One match attempt of the import-scan regex
`(?:from|import)\s+(\w+)` at position `i` (case-sensitive): keyword, then a
greedy nonempty whitespace run, then a greedy nonempty word run (the
captured module name).  Returns `(match length, module name)`. -/
def importMatchAt (cs : List Char) (i : Nat) : Option (Nat × List Char) :=
  let rest := cs.drop i
  let tryKw := fun (kw : List Char) =>
    if kw.isPrefixOf rest then
      let afterKw := rest.drop kw.length
      let k := (afterKw.takeWhile pyWs).length
      let w := (afterKw.drop k).takeWhile pyWord
      if 0 < k && 0 < w.length then some (kw.length + k + w.length, w) else none
    else none
  (tryKw "from".data).orElse fun _ => tryKw "import".data

/-- `re.finditer` scan for the import regex, collecting the captured module
names in scan order. -/
def importScanAux (cs : List Char) : Nat → Nat → List (List Char)
  | 0, _ => []
  | fuel + 1, i =>
    if i < cs.length then
      match importMatchAt cs i with
      | some lw => lw.2 :: importScanAux cs fuel (i + lw.1)
      | none => importScanAux cs fuel (i + 1)
    else []

/-- All module names found by the `(?:from|import)\s+(\w+)` scan. -/
def importScan (cs : List Char) : List (List Char) :=
  importScanAux cs (cs.length + 1) 0

/-- `check_imports(code)`: module names found by the scan that are not in
the allowlist; `is_safe = (len(disallowed) == 0)`. -/
def check_imports (code : String) : Bool × List (List Char) :=
  let disallowed :=
    (importScan code.data).filter fun m =>
      !(ALLOWED_IMPORTS.map String.data).contains m
  (disallowed.isEmpty, disallowed)

/-- `validate_code_safety(code)`.  The third check calls CPython's
`compile`, which is outside the repository; it enters the embedding as the
oracle `pyCompile` (`none` = parses, `some e` = `SyntaxError` message
`e`). -/
def validate_code_safety (pyCompile : String → Option String) (code : String) :
    Bool × Option String :=
  let pr := check_dangerous_patterns code
  if !pr.1 then
    (false, some ("Dangerous patterns detected: " ++
      String.mk (pyJoin ", ".data (pr.2.map (·.matched)))))
  else
    let ir := check_imports code
    if !ir.1 then
      (false, some ("Disallowed imports: " ++
        String.mk (pyJoin ", ".data ir.2)))
    else
      match pyCompile code with
      | some e => (false, some ("Syntax error: " ++ e))
      | none => (true, none)

/-! ### Lemmas about the pattern scan -/

/-- Minimum possible match length of a pattern. -/
def patMinLen : Pat → Nat
  | .lit l => l.length
  | .withOpen => 9

theorem dangerous_minLen_pos : ∀ p ∈ DANGEROUS_PATTERNS, 1 ≤ patMinLen p := by
  decide

theorem ciPrefix_le {pat rest : List Char} (h : ciPrefix pat rest = true) :
    pat.length ≤ rest.length := by
  unfold ciPrefix at h
  have he : lowerStr pat = lowerStr (rest.take pat.length) := by
    exact eq_of_beq h
  have hl : pat.length = min pat.length rest.length := by
    have := congrArg List.length he
    simpa [lowerStr] using this
  omega

theorem matchPatAt_minLen {p : Pat} {cs : List Char} {i l : Nat}
    (h : matchPatAt p cs i = some l) : patMinLen p ≤ l := by
  cases p with
  | lit pl =>
    simp only [matchPatAt] at h
    split at h
    · simp only [Option.some.injEq] at h
      simp [patMinLen, h]
    · exact Option.noConfusion h
  | withOpen =>
    simp only [matchPatAt] at h
    split at h
    · split at h
      · next hk =>
        simp only [Option.some.injEq] at h
        simp only [Bool.and_eq_true, decide_eq_true_eq] at hk
        simp only [patMinLen]
        omega
      · exact Option.noConfusion h
    · exact Option.noConfusion h

theorem matchPatAt_lt_length {p : Pat} {cs : List Char} {i l : Nat}
    (hmin : 1 ≤ patMinLen p) (h : matchPatAt p cs i = some l) :
    i < cs.length := by
  cases p with
  | lit pl =>
    simp only [matchPatAt] at h
    split at h
    · next hp =>
      have := ciPrefix_le hp
      simp only [List.length_drop] at this
      simp only [patMinLen] at hmin
      omega
    · exact Option.noConfusion h
  | withOpen =>
    simp only [matchPatAt] at h
    split at h
    · next hp =>
      have := ciPrefix_le hp
      simp only [List.length_drop, List.length_cons, List.length_nil] at this
      omega
    · exact Option.noConfusion h

theorem findIterAux_sound {p : Pat} {cs : List Char} :
    ∀ fuel i k m, (k, m) ∈ findIterAux p cs fuel i →
      matchPatAt p cs k = some m := by
  intro fuel
  induction fuel with
  | zero => intro i k m h; simp [findIterAux] at h
  | succ fuel ih =>
    intro i k m h
    simp only [findIterAux] at h
    split at h
    · cases hm : matchPatAt p cs i with
      | some l =>
        rw [hm] at h
        simp only [List.mem_cons, Prod.mk.injEq] at h
        rcases h with ⟨rfl, rfl⟩ | h
        · exact hm
        · exact ih _ _ _ h
      | none =>
        rw [hm] at h
        exact ih _ _ _ h
    · simp at h

theorem findIterAux_covers {p : Pat} {cs : List Char}
    (hmin : 1 ≤ patMinLen p) :
    ∀ fuel i j l, matchPatAt p cs j = some l → i ≤ j → cs.length - i < fuel →
      ∃ k m, (k, m) ∈ findIterAux p cs fuel i ∧ k ≤ j ∧ j < k + m := by
  intro fuel
  induction fuel with
  | zero => intro i j l _ _ hf; omega
  | succ fuel ih =>
    intro i j l hj hij hf
    have hjlt : j < cs.length := matchPatAt_lt_length hmin hj
    have hilt : i < cs.length := by omega
    simp only [findIterAux, if_pos hilt]
    cases hm : matchPatAt p cs i with
    | some m =>
      have hm1 : 1 ≤ m := le_trans hmin (matchPatAt_minLen hm)
      by_cases hcov : j < i + m
      · exact ⟨i, m, List.mem_cons_self _ _, hij, hcov⟩
      · have step : i + m ≤ j := by omega
        obtain ⟨k, m', hmem, hk1, hk2⟩ :=
          ih (i + m) j l hj step (by omega)
        exact ⟨k, m', List.mem_cons_of_mem _ hmem, hk1, hk2⟩
    | none =>
      have hne : i ≠ j := by
        intro hcontra
        rw [hcontra, hj] at hm
        exact Option.noConfusion hm
      obtain ⟨k, m', hmem, hk1, hk2⟩ :=
        ih (i + 1) j l hj (by omega) (by omega)
      exact ⟨k, m', hmem, hk1, hk2⟩

/-- Every occurrence of a pattern is covered by some reported `finditer`
match: either it is reported itself or it overlaps an earlier reported
match of the same pattern. -/
theorem findIter_covers {p : Pat} {cs : List Char} {j l : Nat}
    (hmin : 1 ≤ patMinLen p) (hj : matchPatAt p cs j = some l) :
    ∃ k m, (k, m) ∈ findIter p cs ∧ k ≤ j ∧ j < k + m := by
  unfold findIter
  exact findIterAux_covers hmin (cs.length + 1) 0 j l hj (Nat.zero_le _)
    (by omega)

theorem findIter_sound {p : Pat} {cs : List Char} {k m : Nat}
    (h : (k, m) ∈ findIter p cs) : matchPatAt p cs k = some m :=
  findIterAux_sound _ _ _ _ h

/-- If the scan reports nothing, the pattern has no occurrence at all. -/
theorem no_occurrence_of_findIter_nil {p : Pat} {cs : List Char}
    (hmin : 1 ≤ patMinLen p) (h : findIter p cs = []) :
    ∀ j l, matchPatAt p cs j ≠ some l := by
  intro j l hj
  obtain ⟨k, m, hmem, _, _⟩ := findIter_covers hmin hj
  rw [h] at hmem
  simp at hmem

/-- A reported match fits inside the rest of the scanned text. -/
theorem matchPatAt_fits {p : Pat} {cs : List Char} {i l : Nat}
    (h : matchPatAt p cs i = some l) : l ≤ cs.length - i := by
  cases p with
  | lit pl =>
    simp only [matchPatAt] at h
    split at h
    · next hp =>
      have := ciPrefix_le hp
      simp only [List.length_drop] at this
      simp only [Option.some.injEq] at h
      omega
    · exact Option.noConfusion h
  | withOpen =>
    simp only [matchPatAt] at h
    split at h
    · next hp =>
      split at h
      · next hk =>
        simp only [Bool.and_eq_true, decide_eq_true_eq] at hk
        have hopen := ciPrefix_le hk.2
        have hwith := ciPrefix_le hp
        simp only [List.length_drop, List.length_cons, List.length_nil]
          at hopen hwith
        simp only [Option.some.injEq] at h
        omega
      · exact Option.noConfusion h
    · exact Option.noConfusion h

/-- The matched text recorded for a `finditer` match has the match's
length. -/
theorem matched_length {p : Pat} {cs : List Char} {k m : Nat}
    (h : matchPatAt p cs k = some m) :
    ((cs.drop k).take m).length = m := by
  have := matchPatAt_fits h
  simp only [List.length_take, List.length_drop]
  omega

/-! ## Claims C1 and C2 — the Safety Filter -/

/-- **C1, counterexample.**  The claim says the violation report includes
*every occurrence* of every matched pattern.  On `"__import__import__"`
the pattern `__import__` occurs both at offset 0 and at offset 8 (the two
occurrences overlap), but `re.finditer`'s non-overlapping scan — and hence
`check_dangerous_patterns` — reports only the one at offset 0: no
violation entry has position 8. -/
theorem c1_counterexample :
    matchPatAt (Pat.lit "__import__".data) "__import__import__".data 8 =
      some 10 ∧
    Pat.lit "__import__".data ∈ DANGEROUS_PATTERNS ∧
    (check_dangerous_patterns "__import__import__").1 = false ∧
    ((check_dangerous_patterns "__import__import__").2.all
      fun v => v.position ≠ 8) = true := by
  decide

/-- **C1 (amended).**  For every script containing an occurrence of any
blocklisted dangerous pattern, `check_dangerous_patterns` reports unsafe
and `validate_code_safety` returns unsafe; every violation entry is a real
match carrying the pattern, the matched text and its offset, and every
occurrence of every pattern is either reported itself or overlaps an
earlier reported match of the same pattern (all matches of the
non-overlapping scan are collected, not only the first). -/
theorem c1_validate_unsafe_on_dangerous (code : String)
    (h : ∃ p ∈ DANGEROUS_PATTERNS, ∃ i l, matchPatAt p code.data i = some l) :
    (check_dangerous_patterns code).1 = false ∧
    (∀ pyCompile, (validate_code_safety pyCompile code).1 = false) ∧
    (∀ v ∈ (check_dangerous_patterns code).2,
      v.pattern ∈ DANGEROUS_PATTERNS ∧
      matchPatAt v.pattern code.data v.position = some v.matched.length ∧
      v.matched = (code.data.drop v.position).take v.matched.length) ∧
    (∀ p ∈ DANGEROUS_PATTERNS, ∀ i l, matchPatAt p code.data i = some l →
      ∃ v ∈ (check_dangerous_patterns code).2,
        v.pattern = p ∧ v.position ≤ i ∧ i < v.position + v.matched.length) := by
  have sound : ∀ v ∈ (check_dangerous_patterns code).2,
      v.pattern ∈ DANGEROUS_PATTERNS ∧
      matchPatAt v.pattern code.data v.position = some v.matched.length ∧
      v.matched = (code.data.drop v.position).take v.matched.length := by
    intro v hv
    simp only [check_dangerous_patterns, List.mem_flatMap, List.mem_map] at hv
    obtain ⟨p, hp, im, him, rfl⟩ := hv
    obtain ⟨k, m⟩ := im
    have hmatch := findIter_sound him
    have hlen : ((code.data.drop k).take m).length = m := matched_length hmatch
    refine ⟨hp, ?_, ?_⟩
    · simpa [hlen] using hmatch
    · simp [hlen]
  have cover : ∀ p ∈ DANGEROUS_PATTERNS, ∀ i l,
      matchPatAt p code.data i = some l →
      ∃ v ∈ (check_dangerous_patterns code).2,
        v.pattern = p ∧ v.position ≤ i ∧ i < v.position + v.matched.length := by
    intro p hp i l hil
    have hmin := dangerous_minLen_pos p hp
    obtain ⟨k, m, hmem, hk1, hk2⟩ := findIter_covers hmin hil
    have hmatch := findIter_sound hmem
    have hlen : ((code.data.drop k).take m).length = m := matched_length hmatch
    refine ⟨{ pattern := p, matched := (code.data.drop k).take m,
              position := k }, ?_, rfl, hk1, ?_⟩
    · simp only [check_dangerous_patterns, List.mem_flatMap, List.mem_map]
      exact ⟨p, hp, ⟨(k, m), hmem, rfl⟩⟩
    · simpa [hlen] using hk2
  have hne : (check_dangerous_patterns code).2 ≠ [] := by
    obtain ⟨p, hp, i, l, hil⟩ := h
    obtain ⟨v, hv, _⟩ := cover p hp i l hil
    intro hnil
    rw [hnil] at hv
    exact List.not_mem_nil v hv
  have h12 : (check_dangerous_patterns code).1 =
      (check_dangerous_patterns code).2.isEmpty := rfl
  have hfalse : (check_dangerous_patterns code).1 = false := by
    rw [h12]
    exact Bool.eq_false_iff.mpr fun habs => hne (List.isEmpty_iff.mp habs)
  refine ⟨hfalse, ?_, sound, cover⟩
  intro pyCompile
  simp [validate_code_safety, hfalse]

/-- Witness for C1 (amended): the script `"x = eval(1) + Eval(2)"`
contains the pattern `eval\(` (at offset 4), so validation is unsafe and
the report covers that occurrence. -/
theorem c1_witness :
    (check_dangerous_patterns "x = eval(1) + Eval(2)").1 = false ∧
    (∀ pyCompile,
      (validate_code_safety pyCompile "x = eval(1) + Eval(2)").1 = false) := by
  have h := c1_validate_unsafe_on_dangerous "x = eval(1) + Eval(2)"
    ⟨Pat.lit "eval(".data, by decide, 4, 5, by decide⟩
  exact ⟨h.1, h.2.1⟩

/-- **C2.**  A script whose import scan yields only allowlisted module
names, which contains no occurrence of any blocklisted dangerous pattern,
and which the Python compiler accepts, validates as safe:
`validate_code_safety` returns `(True, None)`. -/
theorem c2_validate_safe (pyCompile : String → Option String) (code : String)
    (himp : ∀ m ∈ importScan code.data, m ∈ ALLOWED_IMPORTS.map String.data)
    (hpat : ∀ p ∈ DANGEROUS_PATTERNS, ∀ i l, matchPatAt p code.data i ≠ some l)
    (hsyn : pyCompile code = none) :
    validate_code_safety pyCompile code = (true, none) := by
  have hiter : ∀ p ∈ DANGEROUS_PATTERNS, findIter p code.data = [] := by
    intro p hp
    cases hfi : findIter p code.data with
    | nil => rfl
    | cons x t =>
      obtain ⟨k, m⟩ := x
      have hmem : (k, m) ∈ findIter p code.data := by
        rw [hfi]; exact List.mem_cons_self _ _
      exact absurd (findIter_sound hmem) (hpat p hp k m)
  have hviol : (check_dangerous_patterns code).2 = [] := by
    simp only [check_dangerous_patterns]
    rw [List.flatMap_eq_nil_iff]
    intro p hp
    rw [hiter p hp]
    rfl
  have hchk : (check_dangerous_patterns code).1 = true := by
    have h12 : (check_dangerous_patterns code).1 =
        (check_dangerous_patterns code).2.isEmpty := rfl
    rw [h12, hviol]
    rfl
  have hdis : (check_imports code).2 = [] := by
    simp only [check_imports]
    rw [List.filter_eq_nil_iff]
    intro m hm
    have hmem := himp m hm
    simp [List.contains, List.elem_iff, hmem]
  have hick : (check_imports code).1 = true := by
    have h12 : (check_imports code).1 = (check_imports code).2.isEmpty := rfl
    rw [h12, hdis]
    rfl
  simp [validate_code_safety, hchk, hick, hsyn]

/-- Witness for C2: `"import bpy\nx = 1"` imports only `bpy`, contains no
dangerous pattern, and is given a passing compile oracle. -/
theorem c2_witness :
    validate_code_safety (fun _ => none) "import bpy\nx = 1" = (true, none) := by
  have hnil : ∀ p ∈ DANGEROUS_PATTERNS,
      findIter p ("import bpy\nx = 1" : String).data = [] := by decide
  exact c2_validate_safe (fun _ => none) "import bpy\nx = 1"
    (by decide)
    (fun p hp i l =>
      no_occurrence_of_findIter_nil (dangerous_minLen_pos p hp) (hnil p hp) i l)
    rfl

/-! ## Asset Matcher (`src/blender_addon/model_library.py`)

`search_models` walks the asset directory; the walk itself and the
category bookkeeping are filesystem plumbing, so the embedding receives
the discovered file names as a list in traversal (discovery) order and
models the scoring, filtering and sorting performed on them.  Python's
`list.sort(key=..., reverse=True)` is a stable descending sort, which is
exactly `List.insertionSort scoreGE` (an earlier element is inserted in
front of later equal-scored ones). -/

/-- `supported_formats` from `search_models`. -/
def SUPPORTED_FORMATS : List String :=
  [".blend", ".fbx", ".obj", ".gltf", ".glb", ".stl"]

/-- The stopword list used to filter meaningful query words. -/
def STOP_WORDS : List String :=
  ["add", "the", "create", "make", "place", "import", "put"]

/-- Index of the last `'.'` in a file name, if any. -/
def lastDotIdx (cs : List Char) : Option Nat :=
  ((List.range cs.length).filter fun i => cs.getD i ' ' = '.').getLast?

/-- `pathlib.Path(name).suffix`: the part from the last dot, provided the
dot is neither the first nor the last character. -/
def pathSuffix (cs : List Char) : List Char :=
  match lastDotIdx cs with
  | some i => if 0 < i ∧ i < cs.length - 1 then cs.drop i else []
  | none => []

/-- `pathlib.Path(name).stem`: the name with `pathSuffix` removed. -/
def pathStem (cs : List Char) : List Char :=
  match lastDotIdx cs with
  | some i => if 0 < i ∧ i < cs.length - 1 then cs.take i else cs
  | none => cs

/-- The chained `str.replace` calls producing `clean_filename`. -/
def cleanFilename (file_stem : List Char) : List Char :=
  pyReplace "_8k".data []
    (pyReplace "_4k".data []
      (pyReplace "_02".data []
        (pyReplace "_01".data []
          (pyReplace "food_".data [] file_stem))))

/-- The scoring ladder of `search_models`, transcribed branch by branch
from the source's `if`/`elif` chain. -/
def scoreFile (query_lower : List Char) (query_words meaningful_words : List (List Char))
    (file_stem clean_filename : List Char) : Nat :=
  if query_lower == file_stem || query_lower == clean_filename then 100
  else if meaningful_words.any (fun w => w == clean_filename) then 100
  else if meaningful_words.any (fun w => isSubstr w clean_filename) then 90
  else if isSubstr query_lower clean_filename then 85
  else if isSubstr query_lower file_stem then 80
  else if 2 ≤ query_words.length &&
      (query_words.filter fun w => 2 < w.length).all
        (fun w => isSubstr w file_stem) then 70
  else if query_words.length == 1 && 4 ≤ query_lower.length &&
      isSubstr query_lower file_stem then 60
  else 0

/-- One entry of the result list (the source's dict also carries
`path`/`category`/`format`, which are path bookkeeping; the claims are
about the name, the score and the order). -/
structure MatchRec where
  filename : String
  score : Nat
deriving DecidableEq, Repr

/-- The descending-by-score relation used to model
`matches.sort(key=lambda x: x.score, reverse=True)` (a stable sort). -/
def scoreGE (a b : MatchRec) : Prop := b.score ≤ a.score

instance : DecidableRel scoreGE := fun a b => Nat.decLe b.score a.score

instance : IsTotal MatchRec scoreGE := ⟨fun a b => le_total b.score a.score⟩

instance : IsTrans MatchRec scoreGE := ⟨fun _ _ _ hab hbc => le_trans hbc hab⟩

/-- `query.lower().strip()`. -/
def queryLower (query : String) : List Char := pyStrip (lowerStr query.data)

/-- `query_lower.split()`. -/
def queryWords (query : String) : List (List Char) := pySplitWs (queryLower query)

/-- The "meaningful words" filter: length at least 3 and not a stopword. -/
def meaningfulWords (query : String) : List (List Char) :=
  (queryWords query).filter fun w =>
    3 ≤ w.length && !((STOP_WORDS.map String.data).contains w)

/-- The per-file body of the `search_models` loop: extension check, stem
and clean-stem derivation, scoring, and the `score > 0` keep-test. -/
def fileMatch (query_lower : List Char)
    (query_words meaningful_words : List (List Char)) (file : String) :
    Option MatchRec :=
  let file_ext := lowerStr (pathSuffix file.data)
  if (SUPPORTED_FORMATS.map String.data).contains file_ext then
    let file_stem := lowerStr (pathStem file.data)
    let clean_filename := cleanFilename file_stem
    let score := scoreFile query_lower query_words meaningful_words
      file_stem clean_filename
    if 0 < score then some { filename := file, score := score } else none
  else none

/-- The unsorted match list: supported files with a positive score, in
discovery order — the loop body of `search_models`. -/
def assetMatches (query : String) (files : List String) : List MatchRec :=
  files.filterMap
    (fileMatch (queryLower query) (queryWords query) (meaningfulWords query))

/-- `search_models(query)` over a library discovered in the given order. -/
def search_models (query : String) (files : List String) : List MatchRec :=
  List.insertionSort scoreGE (assetMatches query files)

/-! ### Ordering and stability lemmas for `search_models` -/

theorem mem_filter_score {v : Nat} {t : List MatchRec} {b : MatchRec}
    (h : b ∈ t.filter fun m => m.score == v) : b.score = v := by
  have := (List.mem_filter.mp h).2
  exact eq_of_beq this

/-- Inserting `x` into `A ++ B` lands exactly between them when everything
in `A` scores strictly higher and everything in `B` scores no higher. -/
theorem orderedInsert_middle (x : MatchRec) (A B : List MatchRec)
    (hA : ∀ b ∈ A, x.score < b.score) (hB : ∀ b ∈ B, b.score ≤ x.score) :
    List.orderedInsert scoreGE x (A ++ B) = A ++ x :: B := by
  induction A with
  | nil =>
    cases B with
    | nil => rfl
    | cons b t =>
      simp only [List.nil_append, List.orderedInsert]
      rw [if_pos (show scoreGE x b from hB b (List.mem_cons_self _ _))]
  | cons a A ih =>
    simp only [List.cons_append, List.orderedInsert, List.append_eq]
    have hna : ¬ scoreGE x a := fun hle =>
      absurd (hA a (List.mem_cons_self _ _)) (Nat.not_lt.mpr hle)
    rw [if_neg hna, ih (fun b hb => hA b (List.mem_cons_of_mem _ hb))]

/-- The bucket decomposition: all score-100 entries in discovery order,
then all score-90 entries, and so on down the ladder. -/
def scoreBuckets (l : List MatchRec) : List MatchRec :=
  (l.filter fun m => m.score == 100) ++ (l.filter fun m => m.score == 90) ++
  (l.filter fun m => m.score == 85) ++ (l.filter fun m => m.score == 80) ++
  (l.filter fun m => m.score == 70) ++ (l.filter fun m => m.score == 60)

theorem scoreFile_cases (ql : List Char) (qw mw : List (List Char))
    (fs cf : List Char) :
    scoreFile ql qw mw fs cf = 0 ∨
      scoreFile ql qw mw fs cf ∈ ([100, 90, 85, 80, 70, 60] : List Nat) := by
  unfold scoreFile
  repeat' split
  all_goals decide

theorem insertionSort_scoreBuckets (l : List MatchRec)
    (hl : ∀ m ∈ l, m.score ∈ ([100, 90, 85, 80, 70, 60] : List Nat)) :
    List.insertionSort scoreGE l = scoreBuckets l := by
  induction l with
  | nil => rfl
  | cons x t ih =>
    have hx := hl x (List.mem_cons_self _ _)
    have ht : ∀ m ∈ t, m.score ∈ ([100, 90, 85, 80, 70, 60] : List Nat) :=
      fun m hm => hl m (List.mem_cons_of_mem _ hm)
    have hsort : List.insertionSort scoreGE (x :: t) =
        List.orderedInsert scoreGE x (scoreBuckets t) := by
      rw [List.insertionSort, ih ht]
    rw [hsort]
    have hmemf : ∀ (v : Nat) (b : MatchRec),
        b ∈ (t.filter fun m => m.score == v) → b.score = v :=
      fun v b hb => mem_filter_score hb
    simp only [List.mem_cons, List.not_mem_nil, or_false] at hx
    rcases hx with h | h | h | h | h | h
    · -- x.score = 100: insert in front of everything
      have hsplit : scoreBuckets t = [] ++ scoreBuckets t :=
        (List.nil_append _).symm
      rw [hsplit, orderedInsert_middle x [] (scoreBuckets t)
        (by simp)
        (by
          intro b hb
          simp only [scoreBuckets, List.append_assoc, List.mem_append] at hb
          rcases hb with hb | hb | hb | hb | hb | hb <;>
            (have hsc := hmemf _ _ hb; omega))]
      simp [scoreBuckets, List.filter_cons, h, List.append_assoc]
    · -- x.score = 90
      have hsplit : scoreBuckets t =
          (t.filter fun m => m.score == 100) ++
          ((t.filter fun m => m.score == 90) ++ (t.filter fun m => m.score == 85) ++
           (t.filter fun m => m.score == 80) ++ (t.filter fun m => m.score == 70) ++
           (t.filter fun m => m.score == 60)) := by
        simp [scoreBuckets, List.append_assoc]
      rw [hsplit, orderedInsert_middle x _ _
        (by intro b hb; have := hmemf _ _ hb; omega)
        (by
          intro b hb
          simp only [List.append_assoc, List.mem_append] at hb
          rcases hb with hb | hb | hb | hb | hb <;>
            (have hsc := hmemf _ _ hb; omega))]
      simp [scoreBuckets, List.filter_cons, h, List.append_assoc]
    · -- x.score = 85
      have hsplit : scoreBuckets t =
          ((t.filter fun m => m.score == 100) ++ (t.filter fun m => m.score == 90)) ++
          ((t.filter fun m => m.score == 85) ++ (t.filter fun m => m.score == 80) ++
           (t.filter fun m => m.score == 70) ++ (t.filter fun m => m.score == 60)) := by
        simp [scoreBuckets, List.append_assoc]
      rw [hsplit, orderedInsert_middle x _ _
        (by
          intro b hb
          simp only [List.mem_append] at hb
          rcases hb with hb | hb <;> (have hsc := hmemf _ _ hb; omega))
        (by
          intro b hb
          simp only [List.append_assoc, List.mem_append] at hb
          rcases hb with hb | hb | hb | hb <;>
            (have hsc := hmemf _ _ hb; omega))]
      simp [scoreBuckets, List.filter_cons, h, List.append_assoc]
    · -- x.score = 80
      have hsplit : scoreBuckets t =
          ((t.filter fun m => m.score == 100) ++ (t.filter fun m => m.score == 90) ++
           (t.filter fun m => m.score == 85)) ++
          ((t.filter fun m => m.score == 80) ++ (t.filter fun m => m.score == 70) ++
           (t.filter fun m => m.score == 60)) := by
        simp [scoreBuckets, List.append_assoc]
      rw [hsplit, orderedInsert_middle x _ _
        (by
          intro b hb
          simp only [List.append_assoc, List.mem_append] at hb
          rcases hb with hb | hb | hb <;> (have hsc := hmemf _ _ hb; omega))
        (by
          intro b hb
          simp only [List.append_assoc, List.mem_append] at hb
          rcases hb with hb | hb | hb <;> (have hsc := hmemf _ _ hb; omega))]
      simp [scoreBuckets, List.filter_cons, h, List.append_assoc]
    · -- x.score = 70
      have hsplit : scoreBuckets t =
          ((t.filter fun m => m.score == 100) ++ (t.filter fun m => m.score == 90) ++
           (t.filter fun m => m.score == 85) ++ (t.filter fun m => m.score == 80)) ++
          ((t.filter fun m => m.score == 70) ++ (t.filter fun m => m.score == 60)) := by
        simp [scoreBuckets, List.append_assoc]
      rw [hsplit, orderedInsert_middle x _ _
        (by
          intro b hb
          simp only [List.append_assoc, List.mem_append] at hb
          rcases hb with hb | hb | hb | hb <;> (have hsc := hmemf _ _ hb; omega))
        (by
          intro b hb
          simp only [List.mem_append] at hb
          rcases hb with hb | hb <;> (have hsc := hmemf _ _ hb; omega))]
      simp [scoreBuckets, List.filter_cons, h, List.append_assoc]
    · -- x.score = 60
      have hsplit : scoreBuckets t =
          ((t.filter fun m => m.score == 100) ++ (t.filter fun m => m.score == 90) ++
           (t.filter fun m => m.score == 85) ++ (t.filter fun m => m.score == 80) ++
           (t.filter fun m => m.score == 70)) ++
          (t.filter fun m => m.score == 60) := by
        simp [scoreBuckets, List.append_assoc]
      rw [hsplit, orderedInsert_middle x _ _
        (by
          intro b hb
          simp only [List.append_assoc, List.mem_append] at hb
          rcases hb with hb | hb | hb | hb | hb <;> (have hsc := hmemf _ _ hb; omega))
        (by intro b hb; have := hmemf _ _ hb; omega)]
      simp [scoreBuckets, List.filter_cons, h, List.append_assoc]

theorem fileMatch_some {ql : List Char} {qw mw : List (List Char)}
    {file : String} {m : MatchRec}
    (h : fileMatch ql qw mw file = some m) :
    m.filename = file ∧
    m.score = scoreFile ql qw mw (lowerStr (pathStem file.data))
      (cleanFilename (lowerStr (pathStem file.data))) ∧
    0 < m.score := by
  unfold fileMatch at h
  dsimp only at h
  split at h
  · split at h
    · next hpos =>
      simp only [Option.some.injEq] at h
      subst h
      exact ⟨rfl, rfl, hpos⟩
    · exact Option.noConfusion h
  · exact Option.noConfusion h

theorem assetMatches_score (query : String) (files : List String) :
    ∀ m ∈ assetMatches query files,
      0 < m.score ∧ m.score ∈ ([100, 90, 85, 80, 70, 60] : List Nat) ∧
      m.score = scoreFile (queryLower query) (queryWords query)
        (meaningfulWords query) (lowerStr (pathStem m.filename.data))
        (cleanFilename (lowerStr (pathStem m.filename.data))) := by
  intro m hm
  simp only [assetMatches, List.mem_filterMap] at hm
  obtain ⟨file, _, hsome⟩ := hm
  obtain ⟨hname, hscore, hpos⟩ := fileMatch_some hsome
  subst hname
  refine ⟨hpos, ?_, hscore⟩
  rcases scoreFile_cases (queryLower query) (queryWords query)
      (meaningfulWords query) (lowerStr (pathStem m.filename.data))
      (cleanFilename (lowerStr (pathStem m.filename.data))) with h0 | hv
  · rw [hscore] at hpos
    omega
  · rw [hscore]
    exact hv

/-- The scoring ladder exactly as the specification states it: a strict
precedence chain whose first matching rule decides the score.  (Rules
written from the claim's wording, to be compared with the source-derived
`scoreFile`.) -/
def specLadderScore (query_lower : List Char)
    (query_words meaningful_words : List (List Char))
    (file_stem clean_filename : List Char) : Nat :=
  if query_lower == file_stem || query_lower == clean_filename
      || meaningful_words.any (fun w => w == clean_filename) then 100
  else if meaningful_words.any (fun w => isSubstr w clean_filename) then 90
  else if isSubstr query_lower clean_filename then 85
  else if isSubstr query_lower file_stem then 80
  else if 2 ≤ query_words.length &&
      (query_words.filter fun w => 2 < w.length).all
        (fun w => isSubstr w file_stem) then 70
  else if query_words.length == 1 && 4 ≤ query_lower.length &&
      isSubstr query_lower file_stem then 60
  else 0

theorem scoreFile_eq_specLadder (ql : List Char) (qw mw : List (List Char))
    (fs cf : List Char) :
    scoreFile ql qw mw fs cf = specLadderScore ql qw mw fs cf := by
  unfold scoreFile specLadderScore
  by_cases h1 : (ql == fs || ql == cf) = true
  · simp [h1]
  · by_cases h2 : (mw.any fun w => w == cf) = true
    · simp [h1, h2]
    · simp [h1, h2]

/-- **C6.**  `search_models` over any query and any discovery-ordered
candidate list: the result is a permutation of the positively-scored
supported files; it is sorted by descending score; it equals the
bucket-by-bucket concatenation (score 100 first, …, score 60 last, each
bucket in discovery order — descending order with discovery-order
tie-break, files scoring 0 excluded); every returned score is positive,
drawn from the ladder values, and computed by the precedence ladder, which
coincides rule for rule with the specification's ladder. -/
theorem c6_search_models_order (query : String) (files : List String) :
    List.Perm (search_models query files) (assetMatches query files) ∧
    List.Sorted scoreGE (search_models query files) ∧
    search_models query files = scoreBuckets (assetMatches query files) ∧
    (∀ m ∈ assetMatches query files,
      0 < m.score ∧ m.score ∈ ([100, 90, 85, 80, 70, 60] : List Nat) ∧
      m.score = scoreFile (queryLower query) (queryWords query)
        (meaningfulWords query) (lowerStr (pathStem m.filename.data))
        (cleanFilename (lowerStr (pathStem m.filename.data)))) ∧
    (∀ ql qw mw fs cf,
      scoreFile ql qw mw fs cf = specLadderScore ql qw mw fs cf) := by
  refine ⟨List.perm_insertionSort scoreGE _,
    List.sorted_insertionSort scoreGE _, ?_, assetMatches_score query files,
    scoreFile_eq_specLadder⟩
  exact insertionSort_scoreBuckets _
    fun m hm => (assetMatches_score query files m hm).2.1

/-- **C7.**  The two concrete examples fixed by the specification: query
`"vase"` against `vase_01.blend` scores 100 (clean stem `vase` after
stripping `_01`), and query `"a nice red chair"` against `chair_4k.obj`
scores 100 (the meaningful word `chair` equals the clean stem `chair`). -/
theorem c7_fixed_examples :
    search_models "vase" ["vase_01.blend"] =
      [{ filename := "vase_01.blend", score := 100 }] ∧
    search_models "a nice red chair" ["chair_4k.obj"] =
      [{ filename := "chair_4k.obj", score := 100 }] := by
  exact ⟨by decide, by decide⟩

theorem splitFirst_before_no_occurrence (sep : List Char) (hsep : sep ≠ []) :
    ∀ cs b a, splitFirst sep cs = some (b, a) → isSubstr sep b = false := by
  intro cs
  induction cs with
  | nil =>
    intro b a h
    simp only [splitFirst] at h
    split at h
    · next hs => exact absurd (List.isEmpty_iff.mp hs) hsep
    · exact Option.noConfusion h
  | cons c t ih =>
    intro b a h
    simp only [splitFirst] at h
    split at h
    · next hp =>
      simp only [Option.some.injEq, Prod.mk.injEq] at h
      obtain ⟨rfl, rfl⟩ := h
      simp [isSubstr, hsep]
    · next hp =>
      cases hsp : splitFirst sep t with
      | none => rw [hsp] at h; exact Option.noConfusion h
      | some p =>
        obtain ⟨b', a'⟩ := p
        rw [hsp] at h
        simp only [Option.some.injEq, Prod.mk.injEq] at h
        obtain ⟨rfl, rfl⟩ := h
        have ihb := ih b' a' hsp
        simp only [isSubstr, Bool.or_eq_false_iff]
        refine ⟨?_, ihb⟩
        cases hpre : sep.isPrefixOf (c :: b') with
        | false => rfl
        | true =>
          have h1 : sep <+: c :: b' := List.isPrefixOf_iff_prefix.mp hpre
          have h2 : (b' : List Char) <+: t := by
            have hap := splitFirst_append sep t b' a' hsp
            exact ⟨sep ++ a', by rw [hap, List.append_assoc]⟩
          have h3 : (c :: b' : List Char) <+: c :: t := by
            obtain ⟨u, hu⟩ := h2
            exact ⟨u, by rw [List.cons_append, hu]⟩
          have h4 : sep <+: c :: t := h1.trans h3
          rw [List.isPrefixOf_iff_prefix.mpr h4] at hp
          exact absurd rfl hp
/-! ## Code Generation Gateway (`src/model_interface.py`)

`generate_blender_code` calls the backend and then splits the raw
response into a conversational message and code.  The network call is an
oracle elsewhere; the splitting itself is pure string work on
`full_response`, embedded here as `extractMessageAndCode` (returning
`(code, ai_message)` like the source's first two tuple components). -/

/-- The fixed fallback conversational message substituted when no message
precedes the code. -/
def FALLBACK_AI_MESSAGE : String := "I\x27ve generated the code for you! ✨"

/-- The response-splitting logic of `generate_blender_code`:
`code.split("```python")[1].split("```")[0].strip()` (or the same with a
plain ` ``` ` fence), message = text before the fence, stripped; then the
`if not ai_message or ai_message == full_response` fallback. -/
def extractMessageAndCode (full_response : String) : String × String :=
  let R := full_response.data
  let pcr :=
    if isSubstr "```python".data R then
      (pyStrip ((pySplit "```".data
          ((pySplit "```python".data R).getD 1 [])).getD 0 []),
       pyStrip ((pySplit "```python".data R).getD 0 []))
    else if isSubstr "```".data R then
      (pyStrip ((pySplit "```".data
          ((pySplit "```".data R).getD 1 [])).getD 0 []),
       pyStrip ((pySplit "```".data R).getD 0 []))
    else (R, R)
  let ai := if pcr.2.isEmpty || pcr.2 == R then FALLBACK_AI_MESSAGE.data
    else pcr.2
  (String.mk pcr.1, String.mk ai)

/-- The segment of `l` before the first occurrence of `sep` (the whole of
`l` when `sep` does not occur) — `l.split(sep)[0]`. -/
def beforeFence (sep l : List Char) : List Char :=
  match splitFirst sep l with
  | none => l
  | some (b, _) => b

theorem beforeFence_eq_getD (sep : List Char) (hsep : sep ≠ [])
    (l : List Char) : (pySplit sep l).getD 0 [] = beforeFence sep l := by
  rw [pySplit_getD_zero sep hsep]
  unfold beforeFence
  cases splitFirst sep l with
  | none => rfl
  | some p => obtain ⟨b, a⟩ := p; rfl

theorem beforeFence_no_occurrence (sep l : List Char) (hsep : sep ≠ [])
    (h : isSubstr sep l = false) : beforeFence sep l = l := by
  unfold beforeFence
  rw [(splitFirst_none_iff sep hsep l).mpr h]

theorem isSubstr_true_of_splitFirst {sep cs : List Char}
    {x : List Char × List Char} (hsep : sep ≠ [])
    (h : splitFirst sep cs = some x) : isSubstr sep cs = true := by
  cases hs : isSubstr sep cs with
  | true => rfl
  | false =>
    rw [(splitFirst_none_iff sep hsep cs).mpr hs] at h
    exact Option.noConfusion h

theorem isSubstr_false_mono {n1 n2 h : List Char} (hpre : n1 <+: n2)
    (hfalse : isSubstr n1 h = false) : isSubstr n2 h = false := by
  cases h2 : isSubstr n2 h with
  | false => rfl
  | true =>
    have hinf : n2 <:+: h := (isSubstr_infix_iff n2 h).mp h2
    have : n1 <:+: h := List.IsInfix.trans hpre.isInfix hinf
    rw [(isSubstr_infix_iff n1 h).mpr this] at hfalse
    exact Bool.noConfusion hfalse

theorem pyStrip_ne_of_proper {b sep a R : List Char} (hsep : sep ≠ [])
    (hR : R = b ++ sep ++ a) : pyStrip b ≠ R := by
  intro habs
  have h1 : (pyStrip b).length ≤ b.length := pyStrip_length_le b
  have h2 : R.length = b.length + sep.length + a.length := by
    rw [hR]; simp only [List.length_append]
  have h3 : 0 < sep.length := List.length_pos.mpr hsep
  have h4 : (pyStrip b).length = R.length := by rw [habs]
  omega

/-- **C8, counterexample.**  The claim says the split happens at the
*first* fenced code block.  In `"x```a```y```python\nz\n```"` the first
fence pair is the plain one around `a` (text before it: `"x"`), but the
code prefers the `"```python"` branch wherever it occurs: the extracted
message is everything before the *python* fence, `"x```a```y"`, not
`"x"`, and the code is `"z"`, not `"a"`. -/
theorem c8_counterexample :
    extractMessageAndCode "x```a```y```python\nz\n```" =
      ("z", "x```a```y") ∧
    beforeFence "```".data ("x```a```y```python\nz\n```" : String).data =
      "x".data ∧
    ("x```a```y" : String) ≠ "x" := by
  refine ⟨by decide, by decide, by decide⟩

/-- **C8 (amended).**  The Gateway splits on the first `` ```python ``
fence when one occurs anywhere, otherwise on the first plain `` ``` ``
fence: the stripped text before the chosen fence becomes the
conversational message (with the fixed fallback substituted when it is
empty), and the stripped text from the fence to the next fence marker
becomes the code; a response with no fence at all is returned whole as
the code with the fallback message substituted.  On the specification's
example this yields message `"Sure!"` and code
`"def rendermind_action(context):\n    pass"`. -/
theorem c8_gateway_split :
    (extractMessageAndCode
        "Sure!\n```python\ndef rendermind_action(context):\n    pass\n```" =
      ("def rendermind_action(context):\n    pass", "Sure!")) ∧
    (∀ resp : String, isSubstr "```".data resp.data = false →
      extractMessageAndCode resp = (resp, FALLBACK_AI_MESSAGE)) ∧
    (∀ (resp : String) (b a : List Char),
      splitFirst "```python".data resp.data = some (b, a) →
      extractMessageAndCode resp =
        (String.mk (pyStrip
            (beforeFence "```".data (beforeFence "```python".data a))),
         String.mk (if pyStrip b = [] then FALLBACK_AI_MESSAGE.data
           else pyStrip b))) ∧
    (∀ (resp : String) (b a : List Char),
      isSubstr "```python".data resp.data = false →
      splitFirst "```".data resp.data = some (b, a) →
      extractMessageAndCode resp =
        (String.mk (pyStrip (beforeFence "```".data a)),
         String.mk (if pyStrip b = [] then FALLBACK_AI_MESSAGE.data
           else pyStrip b))) := by
  have hsepPy : ("```python".data : List Char) ≠ [] := by decide
  have hsep3 : ("```".data : List Char) ≠ [] := by decide
  refine ⟨by decide, ?_, ?_, ?_⟩
  · -- no fence: whole response as code, fallback message
    intro resp hno
    have hnopy : isSubstr "```python".data resp.data = false :=
      isSubstr_false_mono ⟨"python".data, rfl⟩ hno
    unfold extractMessageAndCode
    dsimp only
    rw [hnopy, hno, if_neg Bool.false_ne_true, if_neg Bool.false_ne_true]
    simp
  · -- a ```python fence exists somewhere
    intro resp b a hsp
    have hsub : isSubstr "```python".data resp.data = true :=
      isSubstr_true_of_splitFirst hsepPy hsp
    have hR : resp.data = b ++ "```python".data ++ a :=
      splitFirst_append _ _ _ _ hsp
    have hone : (pySplit "```python".data resp.data).getD 1 [] =
        beforeFence "```python".data a := by
      rw [pySplit_getD_one _ hsepPy hsp, beforeFence_eq_getD _ hsepPy]
    have hzero : (pySplit "```python".data resp.data).getD 0 [] = b := by
      rw [beforeFence_eq_getD _ hsepPy]
      unfold beforeFence
      rw [hsp]
    have hmsg : pyStrip b ≠ resp.data := pyStrip_ne_of_proper hsepPy hR
    unfold extractMessageAndCode
    dsimp only
    rw [hsub, if_pos rfl, hone, hzero, beforeFence_eq_getD _ hsep3]
    by_cases hemp : pyStrip b = []
    · simp [hemp]
    · have hbeq : (pyStrip b == resp.data) = false :=
        beq_eq_false_iff_ne.mpr hmsg
      simp [hemp, hbeq, List.isEmpty_iff]
  · -- no ```python, but a plain ``` fence exists
    intro resp b a hnopy hsp
    have hR : resp.data = b ++ "```".data ++ a :=
      splitFirst_append _ _ _ _ hsp
    have hsub : isSubstr "```".data resp.data = true :=
      isSubstr_true_of_splitFirst hsep3 hsp
    have hone : (pySplit "```".data resp.data).getD 1 [] =
        beforeFence "```".data a := by
      rw [pySplit_getD_one _ hsep3 hsp, beforeFence_eq_getD _ hsep3]
    have hzero : (pySplit "```".data resp.data).getD 0 [] = b := by
      rw [beforeFence_eq_getD _ hsep3]
      unfold beforeFence
      rw [hsp]
    have hnob : isSubstr "```".data (beforeFence "```".data a) = false := by
      unfold beforeFence
      cases hsp2 : splitFirst "```".data a with
      | none => exact (splitFirst_none_iff _ hsep3 a).mp hsp2
      | some p =>
        obtain ⟨b2, a2⟩ := p
        exact splitFirst_before_no_occurrence _ hsep3 a b2 a2 hsp2
    have htwice : beforeFence "```".data (beforeFence "```".data a) =
        beforeFence "```".data a :=
      beforeFence_no_occurrence _ _ hsep3 hnob
    have hmsg : pyStrip b ≠ resp.data := pyStrip_ne_of_proper hsep3 hR
    unfold extractMessageAndCode
    dsimp only
    rw [hnopy, if_neg Bool.false_ne_true, hsub, if_pos rfl, hone, hzero,
      beforeFence_eq_getD _ hsep3, htwice]
    by_cases hemp : pyStrip b = []
    · simp [hemp]
    · have hbeq : (pyStrip b == resp.data) = false :=
        beq_eq_false_iff_ne.mpr hmsg
      simp [hemp, hbeq, List.isEmpty_iff]

/-- Witness for C8 (amended): a response with no fence is passed through
whole as code, with the fallback message. -/
theorem c8_witness :
    extractMessageAndCode "make me a cube" =
      ("make me a cube", FALLBACK_AI_MESSAGE) :=
  c8_gateway_split.2.1 "make me a cube" (by decide)

/-! ## Plan-to-Script Emitter (`src/blender_addon/plan_emitter.py`)

`emitter_plan_to_script` is pure string work except for Python's `float()`
builtin, which enters as the oracle `pyFloat` returning the f-string
rendering of the parsed value (`none` = `ValueError`).  The bare
`except Exception: pass` around the crude parse maps to falling back to
the default `0.5` whenever token extraction (`IndexError`) or `float()`
(`ValueError`) fails. -/

/-- The crude radius-token extraction: text after the first `"r="`, cut at
the first comma, first whitespace-separated token, stripped of `)` and
`;`.  `none` when there is no `"r="` or no token (the `IndexError`
case). -/
def radiusToken (p : List Char) : Option (List Char) :=
  match splitFirst "r=".data p with
  | none => none
  | some (_, rest) =>
    match pySplitWs (rest.takeWhile fun c => c ≠ ',') with
    | [] => none
    | t :: _ => some (pyStripChars ");".data t)

/-- The radius actually used by the sphere template: default `0.5`, best
effort replaced by the parsed token when `"r="` occurs and everything
succeeds. -/
def parseRadius (pyFloat : List Char → Option (List Char)) (p : List Char) :
    List Char :=
  if isSubstr "r=".data p then
    match radiusToken p with
    | none => "0.5".data
    | some t =>
      match pyFloat t with
      | none => "0.5".data
      | some r => r
  else "0.5".data

/-- The sphere template with the given rendered radius. -/
def sphereScript (r : List Char) : String :=
  String.intercalate "\n"
    [ "def rendermind_action(context: dict) -> None:"
    , "    import bpy"
    , "    bpy.ops.mesh.primitive_uv_sphere_add(radius=" ++ String.mk r ++
        ", location=(0,0,0.5))"
    , "    obj = bpy.context.active_object"
    , "    obj.name = \x27rm_sphere\x27"
    , "    mat = bpy.data.materials.new(\x27rm_mat\x27)"
    , "    mat.use_nodes = True"
    , "    bsdf = mat.node_tree.nodes.get(\x27Principled BSDF\x27)"
    , "    if bsdf: bsdf.inputs[\x27Base Color\x27].default_value=(0.8,0.2,0.2,1)"
    , "    obj.data.materials.append(mat)" ]

/-- The cylinder / vase template. -/
def cylinderScript : String :=
  String.intercalate "\n"
    [ "def rendermind_action(context: dict) -> None:"
    , "    import bpy"
    , "    bpy.ops.mesh.primitive_cylinder_add(radius=0.25, depth=0.6, location=(0,1,0.3))"
    , "    obj = bpy.context.active_object"
    , "    obj.name = \x27rm_cylinder\x27"
    , "    mat = bpy.data.materials.new(\x27rm_ceramic\x27)"
    , "    mat.use_nodes = True"
    , "    bsdf = mat.node_tree.nodes.get(\x27Principled BSDF\x27)"
    , "    if bsdf: bsdf.inputs[\x27Roughness\x27].default_value = 0.15"
    , "    obj.data.materials.append(mat)" ]

/-- The no-op placeholder script emitted for unrecognized plans. -/
def placeholderScript : String :=
  String.intercalate "\n"
    [ "def rendermind_action(context: dict) -> None:"
    , "    import bpy"
    , "    # Plan not implemented in emitter placeholder"
    , "    print(\x27Plan not implemented\x27)" ]

/-- `emitter_plan_to_script(plan)`. -/
def emitter_plan_to_script (pyFloat : List Char → Option (List Char))
    (plan : String) : String :=
  let p := lowerStr plan.data
  if isSubstr "uv_sphere".data p || isSubstr "sphere".data p then
    sphereScript (parseRadius pyFloat p)
  else if isSubstr "cylinder".data p then cylinderScript
  else placeholderScript

/-- **C9.**  The emitter is total and never fails: a plan containing no
recognized template keyword yields the no-op placeholder, which still
defines the single `rendermind_action` entry point; and in the sphere
branch, when the `r=` token is present but extraction or `float()` fails,
the emitted script uses the hardcoded default radius `0.5`. -/
theorem c9_emitter_fallbacks :
    (∀ (pyFloat : List Char → Option (List Char)) (plan : String),
      isSubstr "uv_sphere".data (lowerStr plan.data) = false →
      isSubstr "sphere".data (lowerStr plan.data) = false →
      isSubstr "cylinder".data (lowerStr plan.data) = false →
      emitter_plan_to_script pyFloat plan = placeholderScript ∧
      isSubstr "def rendermind_action(context: dict) -> None:".data
        (emitter_plan_to_script pyFloat plan).data = true) ∧
    (∀ (pyFloat : List Char → Option (List Char)) (plan : String),
      (isSubstr "uv_sphere".data (lowerStr plan.data) = true ∨
        isSubstr "sphere".data (lowerStr plan.data) = true) →
      isSubstr "r=".data (lowerStr plan.data) = true →
      (∀ t, radiusToken (lowerStr plan.data) = some t → pyFloat t = none) →
      emitter_plan_to_script pyFloat plan = sphereScript "0.5".data) := by
  constructor
  · intro pyFloat plan h1 h2 h3
    have hemit : emitter_plan_to_script pyFloat plan = placeholderScript := by
      unfold emitter_plan_to_script
      dsimp only
      rw [h1, h2, h3]
      rfl
    refine ⟨hemit, ?_⟩
    rw [hemit]
    decide
  · intro pyFloat plan hkey hr htok
    have hsphere : (isSubstr "uv_sphere".data (lowerStr plan.data) ||
        isSubstr "sphere".data (lowerStr plan.data)) = true := by
      rcases hkey with h | h <;> simp [h]
    have hrad : parseRadius pyFloat (lowerStr plan.data) = "0.5".data := by
      unfold parseRadius
      rw [hr, if_pos rfl]
      cases htk : radiusToken (lowerStr plan.data) with
      | none => rfl
      | some t =>
        dsimp only
        rw [htok t htk]
    unfold emitter_plan_to_script
    dsimp only
    rw [hsphere, if_pos rfl, hrad]

/-- Witness for C9: the plan `"sphere r=abc"` takes the sphere branch,
the token `"abc"` fails to parse as a float (oracle returns `none`), and
the emitted script uses radius `0.5`. -/
theorem c9_witness :
    emitter_plan_to_script (fun _ => none) "sphere r=abc" =
      sphereScript "0.5".data := by
  exact c9_emitter_fallbacks.2 (fun _ => none) "sphere r=abc"
    (Or.inr (by decide)) (by decide) (fun t _ => rfl)

/-! ## Safe execution helpers (`src/blender_addon/blender_utils.py`)

`validate_script` is the validator actually used on the execution path; it
is a plain case-sensitive substring scan over `FORBIDDEN_TOKENS`, raising
`RuntimeError` on the first hit.  `exec_script_in_current_scene` runs the
validated script top-level (`exec(script_src, ns)` — the oracle `execPy`,
yielding the resulting namespace or a raised error) and then requires the
`rendermind_action` entry point before invoking it (the oracle `invoke`);
its result is paired with a flag recording whether the entry point was
invoked. -/

/-- `FORBIDDEN_TOKENS` from `src/blender_addon/blender_utils.py`, in
source order. -/
def FORBIDDEN_TOKENS : List String :=
  [ "import os", "subprocess", "open(", "__import__", "eval(", "exec(",
    "os.system", "bpy.ops.wm.open_mainfile", "bpy.ops.wm.read_homefile" ]

/-- `validate_script(src)`: `RuntimeError` on the first forbidden token
found, in list order. -/
def validate_script (src : String) : Except String Unit :=
  match FORBIDDEN_TOKENS.find? (fun tok => isSubstr tok.data src.data) with
  | some tok => .error ("Unsafe token detected in script: " ++ tok)
  | none => .ok ()

/-- The result of `exec(script_src, ns)`: whether `ns` ended up defining
`rendermind_action`. -/
structure PyNamespace where
  has_rendermind_action : Bool
deriving DecidableEq, Repr

/-- `exec_script_in_current_scene(script_src)`.  The `Bool` component
records whether the entry point was invoked. -/
def exec_script_in_current_scene
    (execPy : String → Except String PyNamespace)
    (invoke : String → Except String Unit)
    (script_src : String) : Except String Unit × Bool :=
  match validate_script script_src with
  | .error e => (.error e, false)
  | .ok _ =>
    match execPy script_src with
    | .error e => (.error e, false)
    | .ok ns =>
      if ns.has_rendermind_action then (invoke script_src, true)
      else (.error "Script must define `rendermind_action(context)`", false)

/-- **C10.**  `validate_script` raises iff some fixed forbidden token
occurs as a literal case-sensitive substring of the script — it applies
neither the import allowlist nor the syntax check (witnessed by the
disallowed-import, syntactically broken script `"import socket\n((("`
passing); and `exec_script_in_current_scene` raises `RuntimeError`
without invoking anything when the validated, successfully executed
script does not define `rendermind_action`. -/
theorem c10_validate_script_and_entry_point :
    (∀ src : String,
      (validate_script src).isOk = false ↔
        ∃ tok ∈ FORBIDDEN_TOKENS, tok.data <:+: src.data) ∧
    validate_script "import socket\n(((" = .ok () ∧
    (∀ (execPy : String → Except String PyNamespace)
        (invoke : String → Except String Unit) (script : String)
        (ns : PyNamespace),
      validate_script script = .ok () →
      execPy script = .ok ns →
      ns.has_rendermind_action = false →
      exec_script_in_current_scene execPy invoke script =
        (.error "Script must define `rendermind_action(context)`", false)) := by
  refine ⟨?_, by rfl, ?_⟩
  · intro src
    unfold validate_script
    cases hf : FORBIDDEN_TOKENS.find? (fun tok => isSubstr tok.data src.data) with
    | some tok =>
      constructor
      · intro _
        have hp := List.find?_some hf
        simp only at hp
        exact ⟨tok, List.mem_of_find?_eq_some hf,
          (isSubstr_infix_iff _ _).mp hp⟩
      · intro _
        rfl
    | none =>
      constructor
      · intro habs
        exact absurd habs (by decide)
      · rintro ⟨tok, hmem, hinf⟩
        have hnone := List.find?_eq_none.mp hf tok hmem
        rw [(isSubstr_infix_iff _ _).mpr hinf] at hnone
        exact absurd rfl hnone
  · intro execPy invoke script ns hval hexec hno
    unfold exec_script_in_current_scene
    rw [hval]
    dsimp only
    rw [hexec]
    dsimp only
    rw [hno]
    rfl

/-- Witness for C10: a token-free script whose execution produces a
namespace without `rendermind_action` is rejected before any
invocation. -/
theorem c10_witness :
    exec_script_in_current_scene
        (fun _ => .ok { has_rendermind_action := false })
        (fun _ => .ok ()) "x = 1" =
      (.error "Script must define `rendermind_action(context)`", false) := by
  exact c10_validate_script_and_entry_point.2.2
    (fun _ => .ok { has_rendermind_action := false })
    (fun _ => .ok ()) "x = 1" { has_rendermind_action := false }
    (by rfl) rfl rfl

/-! ## Conversation state and operators (`src/blender_addon/operators.py`,
`src/blender_addon/blender_utils.py`)

`RMChatMessage`/`RMProps` model the property groups; the operators'
`execute` methods become state transformers.  Every failing sub-step of an
operator body (`generate_blender_code`, `exec`, rendering, the scene API)
is modelled as an oracle returning `Except`, and the source's
`try`/`except` blocks become the corresponding `match`es, so each operator
is a total function — exactly the non-propagation the source's handlers
provide.  Timestamps (`datetime.now()`) enter as an oracle string. -/

inductive MsgRole where
  | user | ai | system
deriving DecidableEq, Repr

inductive MsgStatus where
  | none | thinking | success | error
deriving DecidableEq, Repr

/-- `RMChatMessage` (the fields the claims are about; `show_code` is UI
state). -/
structure RMChatMessage where
  role : MsgRole := .user
  content : String := ""
  code : String := ""
  timestamp : String := ""
  status : MsgStatus := .none
  error_msg : String := ""
deriving DecidableEq, Repr

/-- The slice of `RMProps` driving the chat operators. -/
structure RMProps where
  chat_messages : List RMChatMessage := []
  chat_input : String := ""
  is_thinking : Bool := false
  auto_execute : Bool := true
deriving DecidableEq, Repr

/-- A Blender operator's return set: `{'FINISHED'}` or `{'CANCELLED'}`. -/
inductive OpResult where
  | finished | cancelled
deriving DecidableEq, Repr

/-- The outcome of `model_interface.generate_blender_code`: either
`(code, ai_message, None)` or `(None, None, error)`. -/
inductive GenOutcome where
  | ok (code ai_message : String)
  | err (e : String)

/-- `RM_OT_SendMessage.execute`. -/
def sendMessageExecute (gen : GenOutcome)
    (execPy : String → Except String PyNamespace)
    (invoke : String → Except String Unit)
    (ts : String) (props : RMProps) : OpResult × RMProps :=
  let user_input := String.mk (pyStrip props.chat_input.data)
  if user_input = "" then (.cancelled, props)
  else
    let props1 : RMProps := { props with
      chat_messages := props.chat_messages ++
        [{ role := .user, content := user_input, timestamp := ts }],
      chat_input := "", is_thinking := true }
    match gen with
    | .err e =>
      (.cancelled, { props1 with
        chat_messages := props1.chat_messages ++
          [{ role := .ai, content := "Sorry, I encountered an error: " ++ e,
             timestamp := ts, status := .error, error_msg := e }],
        is_thinking := false })
    | .ok code ai_message =>
      let base : RMChatMessage :=
        { role := .ai, content := ai_message, code := code, timestamp := ts,
          status := .none }
      let aiMsg :=
        if props1.auto_execute then
          match (exec_script_in_current_scene execPy invoke code).1 with
          | .ok _ => { base with status := .success }
          | .error e => { base with status := .error, error_msg := e }
        else base
      (.finished, { props1 with
        chat_messages := props1.chat_messages ++ [aiMsg],
        is_thinking := false })

/-- `RM_OT_RunMessageCode.execute` (`execRaw` is the raw
`exec(msg.code, globals())`, whose raised errors the `except` catches). -/
def runMessageCodeExecute (execRaw : String → Except String Unit)
    (message_index : Nat) (props : RMProps) : OpResult × RMProps :=
  if props.chat_messages.length ≤ message_index then (.cancelled, props)
  else
    let msg := props.chat_messages.getD message_index {}
    if msg.code = "" then (.cancelled, props)
    else
      match (do validate_script msg.code; execRaw msg.code :
          Except String Unit) with
      | .ok _ =>
        (.finished, { props with
          chat_messages := (props.chat_messages.set message_index
            { msg with status := .success, error_msg := "" }) })
      | .error e =>
        (.cancelled, { props with
          chat_messages := (props.chat_messages.set message_index
            { msg with status := .error, error_msg := e }) })

/-- The scene collection (`bpy.data.scenes`, by name) and the active
window scene. -/
structure BlenderState where
  scenes : List String := []
  window_scene : String := "Scene"
deriving DecidableEq, Repr

/-- One entry of `props.variants`. -/
structure RMVariant where
  name : String := "Variant"
  plan : String := ""
  thumb_path : String := ""
deriving DecidableEq, Repr

/-- The per-variant preview loop of `RM_OT_Generate.execute`: create a
temp scene, emit/validate/run the script, render a thumbnail — all inside
`try`/`except` — and remove the temp scene in `finally` (modelled as the
unconditional erase after the attempt). -/
def generateVariantLoop (pyFloat : List Char → Option (List Char))
    (execO : String → Except String Unit)
    (renderO : String → Except String Unit) :
    Nat → List String → BlenderState → BlenderState × List RMVariant
  | _, [], st => (st, [])
  | i, pv :: rest, st =>
    let name := "rm_preview_tmp_" ++ toString i
    let st1 : BlenderState :=
      { scenes := st.scenes ++ [name], window_scene := name }
    let attempt : Except String Unit := do
      let script := emitter_plan_to_script pyFloat pv
      validate_script script
      execO script
      renderO name
    let thumb := match attempt with
      | .ok _ => "rm_variant_" ++ toString i ++ ".png"
      | .error _ => ""
    let st2 : BlenderState := { st1 with scenes := st1.scenes.erase name }
    let next := generateVariantLoop pyFloat execO renderO (i + 1) rest st2
    (next.1,
      { name := "Variant " ++ toString (i + 1), plan := pv,
        thumb_path := thumb } :: next.2)

/-- `RM_OT_Preview.execute`.  In the source the
`bpy.data.scenes.remove(tmp_scene)` cleanup sits *inside* the outer `try`,
after rendering — so it is reached only on the success path; the outer
`except` merely reports the error.  The embedding mirrors that: the erase
happens at the end of the attempted block, and the error path keeps
`st1`. -/
def previewExecute (pyFloat : List Char → Option (List Char))
    (execO : String → Except String Unit)
    (renderO : String → Except String Unit)
    (plan : String) (st : BlenderState) : OpResult × BlenderState :=
  let name := "rm_preview_exec"
  let st1 : BlenderState :=
    { scenes := st.scenes ++ [name], window_scene := name }
  let attempt : Except String BlenderState := do
    let script := emitter_plan_to_script pyFloat plan
    validate_script script
    execO script
    renderO name
    pure { st1 with scenes := st1.scenes.erase name }
  match attempt with
  | .ok st2 => (.finished, st2)
  | .error _ => (.finished, st1)

theorem getD_set_self {α : Type} (l : List α) (i : Nat) (x d : α)
    (h : i < l.length) : (l.set i x).getD i d = x := by
  rw [List.getD_eq_getElem?_getD, List.getElem?_set_self (by simpa using h)]
  rfl

/-- **C3.**  A runtime error raised by the script is caught at the
boundary of `RM_OT_RunMessageCode.execute`: the operator returns normally
with `{'CANCELLED'}`, the turn's status becomes `error` with the message
recorded and its code left intact, and the host stays responsive — a next
instruction submitted through `RM_OT_SendMessage` on the resulting state
completes with `{'FINISHED'}`. -/
theorem c3_execution_error_contained (props : RMProps) (i : Nat) (e : String)
    (execRaw : String → Except String Unit)
    (hi : i < props.chat_messages.length)
    (hcode : (props.chat_messages.getD i {}).code ≠ "")
    (hval : validate_script (props.chat_messages.getD i {}).code = .ok ())
    (hexec : execRaw (props.chat_messages.getD i {}).code = .error e) :
    runMessageCodeExecute execRaw i props =
      (.cancelled, { props with
        chat_messages := (props.chat_messages.set i
          { props.chat_messages.getD i {} with
            status := .error, error_msg := e }) }) ∧
    ((runMessageCodeExecute execRaw i props).2.chat_messages.getD i {}).status
      = .error ∧
    ((runMessageCodeExecute execRaw i props).2.chat_messages.getD i {}).error_msg
      = e ∧
    ((runMessageCodeExecute execRaw i props).2.chat_messages.getD i {}).code
      = (props.chat_messages.getD i {}).code ∧
    (∀ (code msg2 ts : String) (execPy : String → Except String PyNamespace)
        (invoke : String → Except String Unit),
      (sendMessageExecute (.ok code msg2) execPy invoke ts
        { (runMessageCodeExecute execRaw i props).2 with
          chat_input := "next" }).1 = .finished) := by
  have hrun : runMessageCodeExecute execRaw i props =
      (.cancelled, { props with
        chat_messages := (props.chat_messages.set i
          { props.chat_messages.getD i {} with
            status := .error, error_msg := e }) }) := by
    unfold runMessageCodeExecute
    rw [if_neg (Nat.not_le.mpr hi)]
    dsimp only
    rw [if_neg hcode]
    dsimp only [Bind.bind, Except.bind]
    rw [hval]
    dsimp only
    rw [hexec]
  have hgot : ((runMessageCodeExecute execRaw i props).2.chat_messages.getD
      i {}) = { props.chat_messages.getD i {} with
        status := .error, error_msg := e } := by
    rw [hrun]
    exact getD_set_self _ i _ _ hi
  refine ⟨hrun, by rw [hgot], by rw [hgot], by rw [hgot], ?_⟩
  intro code msg2 ts execPy invoke
  unfold sendMessageExecute
  dsimp only
  rw [if_neg (by decide)]

/-- Witness for C3: one AI turn holding code `"x = 1"`, an execution
oracle that raises `"boom"`. -/
theorem c3_witness :
    runMessageCodeExecute (fun _ => Except.error "boom") 0
        { chat_messages := [{ role := .ai, code := "x = 1" }] } =
      (.cancelled,
        { chat_messages :=
            [{ role := .ai, code := "x = 1", status := .error,
               error_msg := "boom" }] }) := by
  have h := c3_execution_error_contained
    { chat_messages := [{ role := .ai, code := "x = 1" }] } 0 "boom"
    (fun _ => Except.error "boom") (by decide) (by decide) (by rfl) rfl
  exact h.1

set_option maxRecDepth 8000 in
/-- **C4.**  Evaluating the preview operators at a failing input.  The
per-variant loop of `RM_OT_Generate.execute` removes its temporary scene
on every path (its removal sits in a `finally`): the scene multiset is
preserved for *all* oracles.  `RM_OT_Preview.execute`, whose removal sits
inside the `try` after rendering, leaks its temporary scene whenever
script execution (or rendering) throws: with an execution oracle that
raises, the returned state still contains `"rm_preview_exec"`. -/
theorem c4_preview_scene_leak :
    ((previewExecute (fun _ => none) (fun _ => Except.error "boom")
        (fun _ => Except.ok ()) "sphere"
        { scenes := [], window_scene := "Scene" }).2.scenes =
      ["rm_preview_exec"]) ∧
    (∀ (pyFloat : List Char → Option (List Char))
        (execO renderO : String → Except String Unit)
        (i : Nat) (plans : List String) (st : BlenderState),
      List.Perm
        ((generateVariantLoop pyFloat execO renderO i plans st).1).scenes
        st.scenes) := by
  constructor
  · rfl
  · intro pyFloat execO renderO i plans st
    induction plans generalizing i st with
    | nil => exact List.Perm.refl _
    | cons pv rest ih =>
      unfold generateVariantLoop
      dsimp only
      refine (ih (i + 1) _).trans ?_
      dsimp only
      have h1 : List.Perm
          (st.scenes ++ ["rm_preview_tmp_" ++ toString i])
          (("rm_preview_tmp_" ++ toString i) :: st.scenes) :=
        List.perm_append_singleton _ _
      have h2 := h1.erase ("rm_preview_tmp_" ++ toString i)
      rw [List.erase_cons_head] at h2
      exact h2

/-- **C5, counterexample.**  With auto-execute disabled, a successful
generation appends an AI turn whose status is `none` while its `code`
field holds the generated script — a turn with status `none` *does* carry
an executable artifact. -/
theorem c5_counterexample :
    (sendMessageExecute (.ok "import bpy" "ok")
        (fun _ => Except.ok { has_rendermind_action := true })
        (fun _ => Except.ok ()) "12:00"
        { chat_input := "hi", auto_execute := false }).1 = .finished ∧
    ((sendMessageExecute (.ok "import bpy" "ok")
        (fun _ => Except.ok { has_rendermind_action := true })
        (fun _ => Except.ok ()) "12:00"
        { chat_input := "hi", auto_execute := false }).2.chat_messages.getD
      1 {}).status = .none ∧
    ((sendMessageExecute (.ok "import bpy" "ok")
        (fun _ => Except.ok { has_rendermind_action := true })
        (fun _ => Except.ok ()) "12:00"
        { chat_input := "hi", auto_execute := false }).2.chat_messages.getD
      1 {}).code = "import bpy" ∧
    ("import bpy" : String) ≠ "" := by
  refine ⟨rfl, rfl, rfl, by decide⟩

/-- **C5 (amended).**  Turns whose status is set by a script-execution
attempt keep `code` equal to the attempted script:
`RM_OT_RunMessageCode` refuses empty-code turns unchanged and otherwise
sets status `success`/`error` without touching `code`; with auto-execute
on, the appended AI turn carries the generated code with status
`success`/`error`.  A freshly generated AI turn may hold code with status
`none` (awaiting Run), and a backend-error turn has status `error` with
empty `code`. -/
theorem c5_turn_code_invariants :
    (∀ (execRaw : String → Except String Unit) (i : Nat) (props : RMProps),
      i < props.chat_messages.length →
      ((props.chat_messages.getD i {}).code = "" →
        runMessageCodeExecute execRaw i props = (.cancelled, props)) ∧
      ((props.chat_messages.getD i {}).code ≠ "" →
        ((runMessageCodeExecute execRaw i props).2.chat_messages.getD
            i {}).code = (props.chat_messages.getD i {}).code ∧
        (((runMessageCodeExecute execRaw i props).2.chat_messages.getD
            i {}).status = .success ∨
         ((runMessageCodeExecute execRaw i props).2.chat_messages.getD
            i {}).status = .error))) ∧
    (∀ (code msg : String) (execPy : String → Except String PyNamespace)
        (invoke : String → Except String Unit) (ts : String)
        (props : RMProps),
      props.auto_execute = true →
      String.mk (pyStrip props.chat_input.data) ≠ "" →
      ∃ aiMsg : RMChatMessage,
        (sendMessageExecute (.ok code msg) execPy invoke ts
            props).2.chat_messages =
          props.chat_messages ++
            [{ role := .user,
               content := String.mk (pyStrip props.chat_input.data),
               timestamp := ts }] ++ [aiMsg] ∧
        aiMsg.code = code ∧
        (aiMsg.status = .success ∨ aiMsg.status = .error)) ∧
    (∀ (e : String) (execPy : String → Except String PyNamespace)
        (invoke : String → Except String Unit) (ts : String)
        (props : RMProps),
      String.mk (pyStrip props.chat_input.data) ≠ "" →
      (sendMessageExecute (.err e) execPy invoke ts props).2.chat_messages =
        props.chat_messages ++
          [{ role := .user,
             content := String.mk (pyStrip props.chat_input.data),
             timestamp := ts }] ++
          [{ role := .ai, content := "Sorry, I encountered an error: " ++ e,
             timestamp := ts, status := .error, error_msg := e }]) := by
  refine ⟨?_, ?_, ?_⟩
  · intro execRaw i props hi
    constructor
    · intro hempty
      unfold runMessageCodeExecute
      rw [if_neg (Nat.not_le.mpr hi)]
      dsimp only
      rw [if_pos hempty]
    · intro hcode
      unfold runMessageCodeExecute
      rw [if_neg (Nat.not_le.mpr hi)]
      dsimp only
      rw [if_neg hcode]
      dsimp only [Bind.bind, Except.bind]
      cases hv : validate_script (props.chat_messages.getD i {}).code with
      | error e1 =>
        dsimp only
        rw [getD_set_self _ i _ _ hi]
        exact ⟨rfl, Or.inr rfl⟩
      | ok u =>
        dsimp only
        cases he : execRaw (props.chat_messages.getD i {}).code with
        | ok u2 =>
          dsimp only
          rw [getD_set_self _ i _ _ hi]
          exact ⟨rfl, Or.inl rfl⟩
        | error e2 =>
          dsimp only
          rw [getD_set_self _ i _ _ hi]
          exact ⟨rfl, Or.inr rfl⟩
  · intro code msg execPy invoke ts props hauto hinput
    unfold sendMessageExecute
    dsimp only
    rw [if_neg hinput, hauto, if_pos rfl]
    cases hx : (exec_script_in_current_scene execPy invoke code).1 with
    | ok u =>
      dsimp only
      exact ⟨_, rfl, rfl, Or.inl rfl⟩
    | error e2 =>
      dsimp only
      exact ⟨_, rfl, rfl, Or.inr rfl⟩
  · intro e execPy invoke ts props hinput
    unfold sendMessageExecute
    dsimp only
    rw [if_neg hinput]

/-- Witness for C5 (amended): a turn with empty code is refused without
any state change. -/
theorem c5_witness :
    runMessageCodeExecute (fun _ => Except.ok ()) 0
        { chat_messages := [{ role := .ai }] } =
      (.cancelled, { chat_messages := [{ role := .ai }] }) := by
  exact ((c5_turn_code_invariants.1 (fun _ => Except.ok ()) 0
    { chat_messages := [{ role := .ai }] } (by decide)).1) rfl

/-- Witness for C6: the single match of the `"vase"` example satisfies the
positivity, ladder-value and ladder-computation clauses. -/
theorem c6_witness :
    0 < ({ filename := "vase_01.blend", score := 100 } : MatchRec).score ∧
    ({ filename := "vase_01.blend", score := 100 } : MatchRec).score ∈
      ([100, 90, 85, 80, 70, 60] : List Nat) ∧
    ({ filename := "vase_01.blend", score := 100 } : MatchRec).score =
      scoreFile (queryLower "vase") (queryWords "vase")
        (meaningfulWords "vase")
        (lowerStr (pathStem
          ({ filename := "vase_01.blend", score := 100 } :
            MatchRec).filename.data))
        (cleanFilename (lowerStr (pathStem
          ({ filename := "vase_01.blend", score := 100 } :
            MatchRec).filename.data))) := by
  exact (c6_search_models_order "vase" ["vase_01.blend"]).2.2.2.1
    { filename := "vase_01.blend", score := 100 } (by decide)

end RenderMind
